import Mathlib

/-!
Verification of the vite-rs asset-resolution and HTTP content-negotiation core.

The development shallowly embeds three source units:
* `crates/vite-rs-axum-0-8/src/vite_serve.rs` — `ViteServe::serve`, the
  content negotiator (path stripping, index fallback, ETag / If-None-Match
  handling, Cache-Control strategy selection);
* `crates/vite-rs-embed-macro/src/vite/mod.rs` — the code generated for the
  static store (`resolve` over the alias table, `get` over the literal entry
  table, both by binary search) and for the dev-build live store `get`;
* `crates/vite-rs-dev-server/src/lib.rs` — the dev-process supervisor
  (`set_dev_server` / `unset_dev_server` / `start_dev_server` /
  `stop_dev_server` / `Drop for ViteProcess`), modelled as a state machine
  on the global process slot plus the set of live child processes.

Rust `panic!` / `expect` failures that the spec calls fatal are modelled as
`Except.error` values carrying the panic message.
-/

/-- Decidability of the string order through the character lists: `String`'s
`<` is by definition the lexicographic order on `.data` (`String.lt_iff` is
`.rfl`), whose decidability instance is structurally recursive, so concrete
comparisons reduce inside the kernel. -/
instance (priority := 2000) stringDecLtData (s t : String) : Decidable (s < t) :=
  decidable_of_iff (List.Lex (· < ·) s.data t.data) String.lt_iff_toList_lt.symm

/-- The artifact record for one servable file (the interface crate's `ViteFile`,
with the `content-hash` feature enabled): MIME type, byte length, content hash
(the ETag validator), optional Last-Modified value, and the file bytes. -/
structure ViteFile where
  content_type : String
  content_length : Nat
  content_hash : String
  last_modified : Option String
  bytes : List Nat
deriving Repr, DecidableEq

/-- The `CacheStrategy` enum from `vite_serve.rs`. -/
inductive CacheStrategy where
  | Eager
  | Lazy
  | None
  | Custom (value : String)
deriving Repr, DecidableEq

/-- The Cache-Control value emitted by the strategy `match` in
`ViteServe::serve` (lines 96–110). -/
def cacheControlValue : CacheStrategy → String
  | .Eager => "max-age=0, must-revalidate"
  | .Lazy => "max-age=0, stale-while-revalidate=604800"
  | .None => "no-cache"
  | .Custom header => header

/-- An inbound request as `serve` observes it: the URI path component and the
raw bytes of the `If-None-Match` header value when one is present. (The query
string is extracted by the source but plays no role in lookup or response
construction, so it is not carried here.) -/
structure Request where
  path : String
  ifNoneMatch : Option (List Nat)

/-- An HTTP response: status, headers in emission order, body bytes. -/
structure Response where
  status : Nat
  headers : List (String × String)
  body : List Nat
deriving Repr, DecidableEq

/-- A header-value byte is visible ASCII (32–126) or horizontal tab; exactly
the bytes `http::HeaderValue::to_str` accepts. -/
def visibleAscii (b : Nat) : Bool := (32 ≤ b && b ≤ 126) || b == 9

/-- Model of `HeaderValue::to_str`: succeeds iff every byte is visible ASCII, yielding
the string whose characters are those bytes; otherwise fails (the source then
panics through `expect`). -/
def headerValueToStr (bs : List Nat) : Option String :=
  if bs.all visibleAscii then some (String.mk (bs.map Char.ofNat)) else none

/-- The code points of a string; for an ASCII string these are exactly its
UTF-8 bytes, so equality of `strBytes` with a header's bytes is the
byte-for-byte comparison of the claim. -/
def strBytes (s : String) : List Nat := s.data.map Char.toNat

/-- Model of `path.trim_start_matches` applied to the slash character:
drop every leading slash. -/
def trimLeadingSlashes (s : String) : String :=
  String.mk (s.data.dropWhile (fun c => c == '/'))

/-- The `ViteServe` value: a cache strategy plus the polymorphic asset store
(`Box<dyn GetFromVite>`), embedded as a lookup function. -/
structure ViteServe where
  cache_strategy : CacheStrategy
  assets : String → Option ViteFile

/-- Model of `ViteServe::has_asset`. -/
def ViteServe.has_asset (v : ViteServe) (path : String) : Bool :=
  (v.assets path).isSome

/-- The lookup key `serve` computes (lines 66–73): an empty stripped path
resolves `index.html`; otherwise the directory-style candidate
`<path>/index.html` when the store has it; otherwise the path verbatim. -/
def ViteServe.requestFilePath (v : ViteServe) (path : String) : String :=
  let indexCandidate := path ++ "/index.html"
  if path = "" then "index.html"
  else if v.has_asset indexCandidate then indexCandidate
  else path

/-- The headers `serve` attaches to a found artifact, in emission order
(lines 79–114): Content-Type, Content-Length, ETag, Cache-Control, and
Last-Modified when the artifact carries one. -/
def foundHeaders (strategy : CacheStrategy) (file : ViteFile) : List (String × String) :=
  [("Content-Type", file.content_type),
   ("Content-Length", toString file.content_length),
   ("ETag", file.content_hash),
   ("Cache-Control", cacheControlValue strategy)] ++
  (match file.last_modified with
   | some lm => [("Last-Modified", lm)]
   | none => [])

/-- Model of `ViteServe::serve` (lines 54–155). The fatal `expect` on a malformed
`If-None-Match` header value is an `Except.error`. -/
def ViteServe.serve (v : ViteServe) (req : Request) : Except String Response :=
  let path := trimLeadingSlashes req.path
  let key := v.requestFilePath path
  match v.assets key with
  | some file =>
    let etag := file.content_hash
    let headers := foundHeaders v.cache_strategy file
    match req.ifNoneMatch with
    | some hv =>
      match headerValueToStr hv with
      | some headerEtag =>
        if etag = headerEtag then Except.ok ⟨304, headers, []⟩
        else Except.ok ⟨200, headers, file.bytes⟩
      | none =>
        Except.error "Could not read IF_NONE_MATCH header, it contained invalid characters."
    | none => Except.ok ⟨200, headers, file.bytes⟩
  | none => Except.ok ⟨404, [], []⟩

/-! Section: the generated static store (`vite/mod.rs`, PROD build) -/

/-- The loop of Rust `slice::binary_search_by_key` over the key column of a
table: `left`/`right` bounds with the probe at `left + size / 2`, comparing
the probed key against the searched key. Structurally recursive on an
iteration bound; the searched interval shrinks at every iteration, so any
bound of at least `right - left` gives the loop's exact behaviour. -/
def binarySearchLoop (keys : List String) (key : String) :
    Nat → Nat → Nat → Option Nat
  | 0, _, _ => none
  | fuel + 1, left, right =>
    if left < right then
      let mid := left + (right - left) / 2
      let k := keys.getD mid ""
      if k < key then binarySearchLoop keys key fuel (mid + 1) right
      else if key < k then binarySearchLoop keys key fuel left mid
      else some mid
    else none

/-- The binary search entered with the full iteration budget. -/
def binarySearchGo (keys : List String) (key : String) (left right : Nat) : Option Nat :=
  binarySearchLoop keys key (right - left) left right

/-- The call `ENTRIES.binary_search_by_key` keyed on `entry.0`, over a whole table. -/
def binarySearchByKey {α : Type} (entries : List (String × α)) (key : String) : Option Nat :=
  binarySearchGo (entries.map Prod.fst) key 0 entries.length

/-- The generated `resolve` (lines 151–159): binary-search the alias table;
on a hit return the alias target, otherwise the path unchanged. -/
def staticResolve (aliases : List (String × String)) (path : String) : String :=
  match binarySearchByKey aliases path with
  | some index => (aliases[index]?.map Prod.snd).getD path
  | none => path

/-- The generated `get` (lines 161–169): resolve aliases, then binary-search
the literal entry table and clone the found artifact. -/
def staticGet (entries : List (String × ViteFile)) (aliases : List (String × String))
    (path : String) : Option ViteFile :=
  let path := staticResolve aliases path
  (binarySearchByKey entries path).bind (fun index => entries[index]?.map Prod.snd)

/-- One value of the external bundler's manifest: the produced file path and
the `isEntry` flag (absent means false). -/
structure ManifestEntry where
  file : String
  isEntry : Option Bool
deriving Repr, DecidableEq

/-- The alias-table construction (lines 121–138): for every manifest entry
flagged as an entry point whose source key is not already a literal table key,
register `(source key, produced file)`. The manifest is iterated in key order,
so a key-sorted manifest yields a key-sorted alias table. -/
def mkAliases (manifest : List (String × ManifestEntry)) (literalKeys : List String) :
    List (String × String) :=
  (manifest.filter (fun e => e.2.isEntry.getD false)).filterMap
    (fun e => if e.1 ∈ literalKeys then none else some (e.1, e.2.file))

/-! Section: the generated live store (`vite/mod.rs`, DEV build) -/

/-- What the blocking fetch to the dev server yields before conversion:
status, the optional Content-Type / Content-Length / ETag headers, and the
body bytes. -/
structure DevResponse where
  status : Nat
  contentType : Option String
  contentLength : Option Nat
  etagHeader : Option String
  body : List Nat
deriving Repr, DecidableEq

/-- Outcome of `client.get(&url).send()`: a response, or a transport error. -/
inductive FetchResult where
  | success (res : DevResponse)
  | networkError (msg : String)
deriving Repr, DecidableEq

/-- The dev-build `get` body (lines 277–311, `content-hash` feature enabled):
a 404 yields nothing; a network error is logged and yields nothing; any other
response becomes an artifact with `last_modified` absent, where a missing
Content-Type, Content-Length or ETag header is a fatal `expect`. -/
def devGet (fetch : FetchResult) : Except String (Option ViteFile) :=
  match fetch with
  | .success res =>
    if res.status = 404 then Except.ok none
    else
      match res.contentType with
      | none => Except.error "FATAL: ViteJS dev server did not return a content type!"
      | some ct =>
        match res.contentLength with
        | none => Except.error "FATAL: ViteJS dev server did not return a Content-Length header."
        | some cl =>
          match res.etagHeader with
          | none => Except.error "FATAL: ViteJS dev server did not return an ETag header."
          | some et =>
            Except.ok (some { content_type := ct, content_length := cl,
                              content_hash := et, last_modified := none,
                              bytes := res.body })
  | .networkError _ => Except.ok none

/-! Section: the dev-process supervisor (`vite-rs-dev-server/src/lib.rs`) -/

/-- Supervisor state: the global `VITE_PROCESS` slot, the set of child
processes currently alive, and a counter producing fresh process ids. -/
structure SupervisorState where
  slot : Option Nat
  alive : List Nat
  nextId : Nat
deriving Repr, DecidableEq

/-- Model of `unset_dev_server` (lines 42–53): take the slot and kill its
occupant if one is present. The taken `ViteProcess` temporary produced by
`process.unwrap()` is itself dropped at the end of the kill statement and
re-enters `unset_dev_server`, but by then the slot is already empty, so that
re-entry is a no-op and is elided here. -/
def unsetDevServer (s : SupervisorState) : SupervisorState :=
  match s.slot with
  | some q => { s with slot := none, alive := s.alive.erase q }
  | none => { s with slot := none }

/-- Model of `set_dev_server` (lines 28–39): replace the slot with the new
process; if there was a previous occupant, kill it. The replaced
`ViteProcess` temporary produced by `original.unwrap()` is dropped at the end
of that statement (`ViteProcess` implements `Drop`, lines 56–60, and
`.0.lock()` only borrows its field, so the drop always fires, the global
mutex being free again at that point); the drop calls `unset_dev_server`,
which takes and kills whatever the slot now holds — the process that was just
registered. -/
def setDevServer (s : SupervisorState) (p : Nat) : SupervisorState :=
  match s.slot with
  | some q => unsetDevServer { s with slot := some p, alive := s.alive.erase q }
  | none => { s with slot := some p }

/-- Model of `start_dev_server` (lines 91–152): spawn a fresh child process and
register it through `set_dev_server`; the returned pid is the process the
RAII guard wraps. -/
def startDevServer (s : SupervisorState) : SupervisorState × Nat :=
  let pid := s.nextId
  let spawned : SupervisorState :=
    { s with alive := s.alive ++ [pid], nextId := s.nextId + 1 }
  (setDevServer spawned pid, pid)

/-- Model of `stop_dev_server` (lines 162–164): exactly `unset_dev_server`. -/
def stopDevServer (s : SupervisorState) : SupervisorState := unsetDevServer s

/-- Model of `Drop for ViteProcess` (lines 56–60): exactly `unset_dev_server`. -/
def dropViteProcess (s : SupervisorState) : SupervisorState := unsetDevServer s

/-! Section: concrete sample data (the scenario of spec section 8) for witnesses -/

/-- The artifact for `index.html` in the scenario table. -/
def fileA : ViteFile :=
  { content_type := "text/html", content_length := 2, content_hash := "hashA",
    last_modified := some "Mon, 01 Jan 2024 00:00:00 GMT", bytes := [104, 105] }

/-- The artifact for `assets/app-abc.js` in the scenario table. -/
def fileB : ViteFile :=
  { content_type := "text/javascript", content_length := 3, content_hash := "hashB",
    last_modified := none, bytes := [1, 2, 3] }

/-- The scenario's literal table, sorted by key. -/
def sampleEntries : List (String × ViteFile) :=
  [("assets/app-abc.js", fileB), ("index.html", fileA)]

/-- The scenario's manifest: one entry point, `src/app.ts`, compiled to
`assets/app-abc.js`. -/
def sampleManifest : List (String × ManifestEntry) :=
  [("src/app.ts", { file := "assets/app-abc.js", isEntry := some true })]

/-- The scenario's alias table as the indexer builds it. -/
def sampleAliases : List (String × String) :=
  mkAliases sampleManifest (sampleEntries.map Prod.fst)

/-- The static store over the scenario tables, as a `ViteServe` asset source. -/
def sampleServe : ViteServe :=
  { cache_strategy := CacheStrategy.Eager,
    assets := fun p => staticGet sampleEntries sampleAliases p }

/-! Section: helper lemmas -/

/-- Character codes below 128 round-trip through `Char.ofNat`. -/
theorem char_toNat_ofNat_small : ∀ b : Nat, b < 128 → (Char.ofNat b).toNat = b := by
  decide

/-- The code-point map `Char.toNat` is injective. -/
theorem char_toNat_inj : Function.Injective Char.toNat := by
  intro a b h
  have h2 := Char.ofNat_toNat a
  rw [h, Char.ofNat_toNat b] at h2
  exact h2.symm

/-- A visible-ASCII byte is below 128. -/
theorem visibleAscii_lt (b : Nat) (h : visibleAscii b = true) : b < 128 := by
  unfold visibleAscii at h
  simp only [Bool.or_eq_true, Bool.and_eq_true, decide_eq_true_eq, beq_iff_eq] at h
  omega

/-- A successfully decoded header value's bytes are exactly the code points of
the decoded string: decoding inverts the ASCII byte encoding. -/
theorem headerValueToStr_eq_some (bs : List Nat) (s : String)
    (h : headerValueToStr bs = some s) : bs = strBytes s := by
  unfold headerValueToStr at h
  by_cases hall : bs.all visibleAscii
  · rw [if_pos hall] at h
    injection h with h
    subst h
    unfold strBytes
    show bs = (bs.map Char.ofNat).map Char.toNat
    rw [List.map_map]
    have hpt : ∀ b ∈ bs, (Char.toNat ∘ Char.ofNat) b = id b := by
      intro b hb
      exact char_toNat_ofNat_small b
        (visibleAscii_lt b (List.all_eq_true.mp hall b hb))
    rw [List.map_congr_left hpt, List.map_id]
  · rw [if_neg hall] at h
    cases h

/-- The byte encoding `strBytes` is injective. -/
theorem strBytes_inj : Function.Injective strBytes := by
  intro s t h
  unfold strBytes at h
  have hd := List.map_injective_iff.mpr char_toNat_inj h
  cases s
  cases t
  exact congrArg String.mk hd

/-- Soundness of the binary-search loop: a returned index is in bounds and
carries the searched key (no sortedness needed). -/
theorem binarySearchLoop_sound (keys : List String) (key : String) :
    ∀ fuel left right i, right ≤ keys.length →
      binarySearchLoop keys key fuel left right = some i →
      i < keys.length ∧ keys.getD i "" = key := by
  intro fuel
  induction fuel with
  | zero =>
    intro left right i _ h
    simp [binarySearchLoop] at h
  | succ fuel ih =>
    intro left right i hr h
    rw [binarySearchLoop] at h
    by_cases hlr : left < right
    · rw [if_pos hlr] at h
      simp only [] at h
      by_cases h1 : keys.getD (left + (right - left) / 2) "" < key
      · rw [if_pos h1] at h
        exact ih (left + (right - left) / 2 + 1) right i hr h
      · rw [if_neg h1] at h
        by_cases h2 : key < keys.getD (left + (right - left) / 2) ""
        · rw [if_pos h2] at h
          have hmr : left + (right - left) / 2 < right := by omega
          exact ih left (left + (right - left) / 2) i
            (le_of_lt (lt_of_lt_of_le hmr hr)) h
        · rw [if_neg h2] at h
          injection h with h
          subst h
          refine ⟨by omega, ?_⟩
          exact le_antisymm (not_lt.mp h2) (not_lt.mp h1)
    · rw [if_neg hlr] at h
      cases h

/-- Completeness of the binary-search loop over a strictly sorted key column:
with enough iteration budget, an in-range index carrying the searched key is
found. -/
theorem binarySearchLoop_complete (keys : List String) (key : String)
    (hs : keys.Pairwise (· < ·)) :
    ∀ fuel left right i, right - left ≤ fuel → right ≤ keys.length →
      i < keys.length → keys.getD i "" = key → left ≤ i → i < right →
      binarySearchLoop keys key fuel left right = some i := by
  have hmono : ∀ a b, a < keys.length → b < keys.length → a < b →
      keys.getD a "" < keys.getD b "" := by
    intro a b ha hb hab
    rw [List.getD_eq_getElem?_getD, List.getElem?_eq_getElem ha,
      List.getD_eq_getElem?_getD, List.getElem?_eq_getElem hb]
    exact List.pairwise_iff_getElem.mp hs a b ha hb hab
  intro fuel
  induction fuel with
  | zero =>
    intro left right i hf _ _ _ hl hir
    omega
  | succ fuel ih =>
    intro left right i hf hr hi hkey hl hir
    have hlr : left < right := lt_of_le_of_lt hl hir
    rw [binarySearchLoop, if_pos hlr]
    simp only []
    have hmr : left + (right - left) / 2 < right := by omega
    have hml : left ≤ left + (right - left) / 2 := by omega
    have hmlen : left + (right - left) / 2 < keys.length :=
      lt_of_lt_of_le hmr hr
    by_cases h1 : keys.getD (left + (right - left) / 2) "" < key
    · rw [if_pos h1]
      have hmi : left + (right - left) / 2 < i := by
        rcases Nat.lt_trichotomy (left + (right - left) / 2) i with h | h | h
        · exact h
        · rw [h, hkey] at h1
          exact absurd h1 (lt_irrefl key)
        · have hlt := hmono i (left + (right - left) / 2) hi hmlen h
          rw [hkey] at hlt
          exact absurd (lt_trans hlt h1) (lt_irrefl _)
      exact ih (left + (right - left) / 2 + 1) right i (by omega) hr hi hkey
        (by omega) hir
    · rw [if_neg h1]
      by_cases h2 : key < keys.getD (left + (right - left) / 2) ""
      · rw [if_pos h2]
        have him : i < left + (right - left) / 2 := by
          rcases Nat.lt_trichotomy i (left + (right - left) / 2) with h | h | h
          · exact h
          · rw [← h, hkey] at h2
            exact absurd h2 (lt_irrefl key)
          · have hlt := hmono (left + (right - left) / 2) i hmlen hi h
            rw [hkey] at hlt
            exact absurd (lt_trans hlt h2) (lt_irrefl _)
        exact ih left (left + (right - left) / 2) i (by omega)
          (le_of_lt hmlen) hi hkey hl him
      · rw [if_neg h2]
        have hkm : keys.getD (left + (right - left) / 2) "" = key :=
          le_antisymm (not_lt.mp h2) (not_lt.mp h1)
        have hmid : left + (right - left) / 2 = i := by
          rcases Nat.lt_trichotomy (left + (right - left) / 2) i with h | h | h
          · have hlt := hmono (left + (right - left) / 2) i hmlen hi h
            rw [hkm, hkey] at hlt
            exact absurd hlt (lt_irrefl key)
          · exact h
          · have hlt := hmono i (left + (right - left) / 2) hi hmlen h
            rw [hkm, hkey] at hlt
            exact absurd hlt (lt_irrefl key)
        rw [hmid]

/-- A successful table search returns an index holding the searched key. -/
theorem binarySearchByKey_some {α : Type} (entries : List (String × α))
    (p : String) (i : Nat) (h : binarySearchByKey entries p = some i) :
    ∃ e, entries[i]? = some e ∧ e.1 = p := by
  unfold binarySearchByKey binarySearchGo at h
  obtain ⟨hi, hkey⟩ := binarySearchLoop_sound (entries.map Prod.fst) p
    (entries.length - 0) 0 entries.length i (by simp) h
  rw [List.length_map] at hi
  refine ⟨entries[i], List.getElem?_eq_getElem hi, ?_⟩
  rw [List.getD_eq_getElem?_getD, List.getElem?_map,
    List.getElem?_eq_getElem hi] at hkey
  exact hkey

/-- A key absent from the key column is never found. -/
theorem binarySearchByKey_none {α : Type} (entries : List (String × α))
    (p : String) (habsent : p ∉ entries.map Prod.fst) :
    binarySearchByKey entries p = none := by
  cases h : binarySearchByKey entries p with
  | none => rfl
  | some i =>
    obtain ⟨e, he, hfst⟩ := binarySearchByKey_some entries p i h
    have hmem : e ∈ entries := List.getElem?_mem he
    exact absurd (hfst ▸ List.mem_map_of_mem Prod.fst hmem) habsent

/-- Over a strictly key-sorted table, searching the key of a stored pair
finds exactly that pair. -/
theorem binarySearchByKey_of_mem {α : Type} (entries : List (String × α))
    (hs : (entries.map Prod.fst).Pairwise (· < ·)) (p : String) (a : α)
    (hmem : (p, a) ∈ entries) :
    ∃ i, binarySearchByKey entries p = some i ∧ entries[i]? = some (p, a) := by
  obtain ⟨i, hi, hget⟩ := List.getElem_of_mem hmem
  refine ⟨i, ?_, ?_⟩
  · unfold binarySearchByKey binarySearchGo
    apply binarySearchLoop_complete (entries.map Prod.fst) p hs
      (entries.length - 0) 0 entries.length i
    · omega
    · simp
    · simpa using hi
    · rw [List.getD_eq_getElem?_getD, List.getElem?_map,
        List.getElem?_eq_getElem hi, hget]
      rfl
    · omega
    · exact hi
  · rw [List.getElem?_eq_getElem hi, hget]

/-- The generated `resolve` leaves a path that is no alias source unchanged. -/
theorem staticResolve_eq_self (aliases : List (String × String)) (p : String)
    (h : p ∉ aliases.map Prod.fst) : staticResolve aliases p = p := by
  unfold staticResolve
  rw [binarySearchByKey_none aliases p h]

/-- The generated `resolve` either leaves the path unchanged or rewrites it along a stored
alias pair. -/
theorem staticResolve_mem_or_self (aliases : List (String × String)) (p : String) :
    staticResolve aliases p = p ∨ (p, staticResolve aliases p) ∈ aliases := by
  unfold staticResolve
  cases h : binarySearchByKey aliases p with
  | none => exact Or.inl rfl
  | some i =>
    obtain ⟨e, he, hfst⟩ := binarySearchByKey_some aliases p i h
    right
    show (p, (Option.map Prod.snd aliases[i]?).getD p) ∈ aliases
    rw [he]
    show (p, e.2) ∈ aliases
    have hpe : (p, e.2) = e := by
      cases e
      cases hfst
      rfl
    rw [hpe]
    exact List.getElem?_mem he

/-- The generated `get` on a literal key that no alias shadows returns its artifact. -/
theorem staticGet_of_mem (entries : List (String × ViteFile))
    (hs : (entries.map Prod.fst).Pairwise (· < ·))
    (aliases : List (String × String)) (p : String) (a : ViteFile)
    (hmem : (p, a) ∈ entries) (hres : staticResolve aliases p = p) :
    staticGet entries aliases p = some a := by
  unfold staticGet
  rw [hres]
  show (binarySearchByKey entries p).bind
    (fun index => Option.map Prod.snd entries[index]?) = some a
  obtain ⟨i, hsearch, hget⟩ := binarySearchByKey_of_mem entries hs p a hmem
  rw [hsearch]
  simp [hget]

/-- Unpacking alias-table membership: every alias pair comes from an
entry-point manifest record whose source key is not a literal key. -/
theorem mem_mkAliases (manifest : List (String × ManifestEntry))
    (lits : List String) (k t : String)
    (h : (k, t) ∈ mkAliases manifest lits) :
    k ∉ lits ∧ ∃ e, e ∈ manifest ∧ e.1 = k ∧
      e.2.isEntry.getD false = true ∧ e.2.file = t := by
  unfold mkAliases at h
  obtain ⟨e, he, hfe⟩ := List.mem_filterMap.mp h
  obtain ⟨hem, hentry⟩ := List.mem_filter.mp he
  by_cases hk : e.1 ∈ lits
  · rw [if_pos hk] at hfe
    cases hfe
  · rw [if_neg hk] at hfe
    injection hfe with hfe
    injection hfe with h1 h2
    subst h1
    subst h2
    exact ⟨hk, e, hem, rfl, hentry, rfl⟩

/-! Section: claim theorems -/

/-- C3: For the generated static-store `get` over sorted literal and alias
tables (whose alias sources, as the indexer guarantees, are never literal
keys): every literal-table key returns exactly the artifact registered for
it, and every path absent from both tables returns nothing. -/
theorem static_store_get_exact (entries : List (String × ViteFile))
    (aliases : List (String × String))
    (hsorted : (entries.map Prod.fst).Pairwise (· < ·))
    (hdisj : ∀ k ∈ aliases.map Prod.fst, k ∉ entries.map Prod.fst) :
    (∀ p a, (p, a) ∈ entries → staticGet entries aliases p = some a) ∧
    (∀ p, p ∉ entries.map Prod.fst → p ∉ aliases.map Prod.fst →
      staticGet entries aliases p = none) := by
  constructor
  · intro p a hmem
    have hp : p ∈ entries.map Prod.fst := List.mem_map_of_mem Prod.fst hmem
    exact staticGet_of_mem entries hsorted aliases p a hmem
      (staticResolve_eq_self aliases p (fun hc => hdisj p hc hp))
  · intro p hp ha
    unfold staticGet
    rw [staticResolve_eq_self aliases p ha]
    show (binarySearchByKey entries p).bind
      (fun index => Option.map Prod.snd entries[index]?) = none
    rw [binarySearchByKey_none entries p hp]
    rfl

/-- C4: Alias resolution is precedence-correct and idempotent: the indexer
registers an alias only for entry points whose source key is not already a
literal key, so a path that is both a literal key and a would-be alias source
gets no alias, resolves to itself, and `get` returns its literal artifact;
and (entry-point outputs being literal keys, as the build guarantees)
applying `resolve` twice equals applying it once. -/
theorem alias_precedence_idempotent (manifest : List (String × ManifestEntry))
    (entries : List (String × ViteFile))
    (hsorted : (entries.map Prod.fst).Pairwise (· < ·))
    (hfiles : ∀ e ∈ manifest, e.2.isEntry.getD false = true →
      e.2.file ∈ entries.map Prod.fst) :
    (∀ p ∈ entries.map Prod.fst,
      p ∉ (mkAliases manifest (entries.map Prod.fst)).map Prod.fst) ∧
    (∀ p ∈ entries.map Prod.fst,
      staticResolve (mkAliases manifest (entries.map Prod.fst)) p = p) ∧
    (∀ p a, (p, a) ∈ entries →
      staticGet entries (mkAliases manifest (entries.map Prod.fst)) p = some a) ∧
    (∀ p, staticResolve (mkAliases manifest (entries.map Prod.fst))
        (staticResolve (mkAliases manifest (entries.map Prod.fst)) p) =
      staticResolve (mkAliases manifest (entries.map Prod.fst)) p) := by
  have hnotin : ∀ p ∈ entries.map Prod.fst,
      p ∉ (mkAliases manifest (entries.map Prod.fst)).map Prod.fst := by
    intro p hp hmem
    obtain ⟨kt, hkt, hfst⟩ := List.mem_map.mp hmem
    obtain ⟨hk, _⟩ := mem_mkAliases manifest (entries.map Prod.fst) kt.1 kt.2
      (by cases kt; exact hkt)
    exact hk (hfst ▸ hp)
  have hself : ∀ p ∈ entries.map Prod.fst,
      staticResolve (mkAliases manifest (entries.map Prod.fst)) p = p :=
    fun p hp => staticResolve_eq_self _ p (hnotin p hp)
  refine ⟨hnotin, hself, ?_, ?_⟩
  · intro p a hmem
    exact staticGet_of_mem entries hsorted _ p a hmem
      (hself p (List.mem_map_of_mem Prod.fst hmem))
  · intro p
    rcases staticResolve_mem_or_self (mkAliases manifest (entries.map Prod.fst)) p
      with h | h
    · rw [h]
      exact h
    · obtain ⟨_, e, hem, _, hentry, hfile⟩ :=
        mem_mkAliases manifest (entries.map Prod.fst) p _ h
      exact hself _ (hfile ▸ hfiles e hem hentry)

/-- Case analysis of `serve` on a found artifact: the four control-flow
outcomes of the conditional-request check. -/
theorem serve_found_cases (v : ViteServe) (req : Request) (file : ViteFile)
    (hfound : v.assets (v.requestFilePath (trimLeadingSlashes req.path)) = some file) :
    (req.ifNoneMatch = none ∧ v.serve req =
      Except.ok ⟨200, foundHeaders v.cache_strategy file, file.bytes⟩) ∨
    (∃ hv s, req.ifNoneMatch = some hv ∧ headerValueToStr hv = some s ∧
      file.content_hash = s ∧ v.serve req =
        Except.ok ⟨304, foundHeaders v.cache_strategy file, []⟩) ∨
    (∃ hv s, req.ifNoneMatch = some hv ∧ headerValueToStr hv = some s ∧
      file.content_hash ≠ s ∧ v.serve req =
        Except.ok ⟨200, foundHeaders v.cache_strategy file, file.bytes⟩) ∨
    (∃ hv, req.ifNoneMatch = some hv ∧ headerValueToStr hv = none ∧
      v.serve req = Except.error
        "Could not read IF_NONE_MATCH header, it contained invalid characters.") := by
  cases hnm : req.ifNoneMatch with
  | none =>
    left
    exact ⟨rfl, by simp only [ViteServe.serve, hfound, hnm]⟩
  | some hv =>
    cases hdec : headerValueToStr hv with
    | none =>
      right; right; right
      exact ⟨hv, rfl, hdec, by simp only [ViteServe.serve, hfound, hnm, hdec]⟩
    | some s =>
      by_cases heq : file.content_hash = s
      · right; left
        exact ⟨hv, s, rfl, hdec, heq,
          by simp only [ViteServe.serve, hfound, hnm, hdec, if_pos heq]⟩
      · right; right; left
        exact ⟨hv, s, rfl, hdec, heq,
          by simp only [ViteServe.serve, hfound, hnm, hdec, if_neg heq]⟩

/-- C1: Every response for a request resolving to an artifact carries the
artifact's validator as its ETag header; it is `304` with an empty body — and
the same headers (Content-Type, Content-Length, ETag, Cache-Control,
Last-Modified if present) the `200` response would have — iff the request's
If-None-Match value equals the ETag byte for byte; otherwise it is `200` with
the artifact's full bytes. -/
theorem serve_etag_conditional (v : ViteServe) (req : Request) (file : ViteFile)
    (resp : Response)
    (hfound : v.assets (v.requestFilePath (trimLeadingSlashes req.path)) = some file)
    (hok : v.serve req = Except.ok resp) :
    resp.headers = foundHeaders v.cache_strategy file ∧
    ("ETag", file.content_hash) ∈ resp.headers ∧
    ((resp.status = 304 ∧ resp.body = []) ↔
      req.ifNoneMatch = some (strBytes file.content_hash)) ∧
    ((resp.status = 304 ∧ resp.body = []) ∨
      (resp.status = 200 ∧ resp.body = file.bytes)) := by
  have hmemEtag : ("ETag", file.content_hash) ∈ foundHeaders v.cache_strategy file := by
    simp [foundHeaders]
  rcases serve_found_cases v req file hfound with
    ⟨hnm, hs⟩ | ⟨hv, s, hnm, hdec, heq, hs⟩ | ⟨hv, s, hnm, hdec, hne, hs⟩ |
    ⟨hv, hnm, hdec, hs⟩
  · injection (hok.symm.trans hs) with h
    subst h
    refine ⟨rfl, hmemEtag, ?_, Or.inr ⟨rfl, rfl⟩⟩
    simp [hnm]
  · injection (hok.symm.trans hs) with h
    subst h
    refine ⟨rfl, hmemEtag, ?_, Or.inl ⟨rfl, rfl⟩⟩
    refine iff_of_true ⟨rfl, rfl⟩ ?_
    rw [hnm, headerValueToStr_eq_some hv s hdec, heq]
  · injection (hok.symm.trans hs) with h
    subst h
    refine ⟨rfl, hmemEtag, ?_, Or.inr ⟨rfl, rfl⟩⟩
    refine iff_of_false (by simp) ?_
    intro hc
    rw [hnm] at hc
    injection hc with hc
    rw [hc] at hdec
    exact hne (strBytes_inj (headerValueToStr_eq_some _ s hdec))
  · rw [hok] at hs
    exact Except.noConfusion hs

/-- C2: The lookup key of `serve`: an empty stripped path resolves
`index.html`; otherwise `<path>/index.html` when the store has it (even when
`<path>` itself also resolves, the candidate probe not consulting `<path>`);
otherwise the path verbatim — and the response is built from the store's
artifact for exactly that key. -/
theorem serve_index_fallback (v : ViteServe) (rawPath : String) :
    (trimLeadingSlashes rawPath = "" →
      v.requestFilePath (trimLeadingSlashes rawPath) = "index.html") ∧
    (trimLeadingSlashes rawPath ≠ "" →
      v.has_asset (trimLeadingSlashes rawPath ++ "/index.html") = true →
      v.requestFilePath (trimLeadingSlashes rawPath) =
        trimLeadingSlashes rawPath ++ "/index.html") ∧
    (trimLeadingSlashes rawPath ≠ "" →
      v.has_asset (trimLeadingSlashes rawPath ++ "/index.html") = false →
      v.requestFilePath (trimLeadingSlashes rawPath) = trimLeadingSlashes rawPath) ∧
    (v.serve { path := rawPath, ifNoneMatch := none } =
      match v.assets (v.requestFilePath (trimLeadingSlashes rawPath)) with
      | some file =>
        Except.ok ⟨200, foundHeaders v.cache_strategy file, file.bytes⟩
      | none => Except.ok ⟨404, [], []⟩) := by
  refine ⟨?_, ?_, ?_, ?_⟩
  · intro h
    simp [ViteServe.requestFilePath, h]
  · intro h hhas
    simp [ViteServe.requestFilePath, h, hhas]
  · intro h hhas
    simp [ViteServe.requestFilePath, h, hhas]
  · cases hres : v.assets (v.requestFilePath (trimLeadingSlashes rawPath)) with
    | some file => simp only [ViteServe.serve, hres]
    | none => simp only [ViteServe.serve, hres]

/-- C5: For every found asset the emitted Cache-Control header is exactly
determined by the configured strategy: `Eager` gives
`max-age=0, must-revalidate`, `Lazy` gives
`max-age=0, stale-while-revalidate=604800`, `None` gives `no-cache`, and
`Custom(v)` gives `v`. -/
theorem serve_cache_control_exact (v : ViteServe) (req : Request) (file : ViteFile)
    (resp : Response)
    (hfound : v.assets (v.requestFilePath (trimLeadingSlashes req.path)) = some file)
    (hok : v.serve req = Except.ok resp) :
    resp.headers.filter (fun h => h.1 == "Cache-Control") =
      [("Cache-Control", cacheControlValue v.cache_strategy)] ∧
    cacheControlValue CacheStrategy.Eager = "max-age=0, must-revalidate" ∧
    cacheControlValue CacheStrategy.Lazy = "max-age=0, stale-while-revalidate=604800" ∧
    cacheControlValue CacheStrategy.None = "no-cache" ∧
    (∀ value, cacheControlValue (CacheStrategy.Custom value) = value) := by
  have hheaders : resp.headers = foundHeaders v.cache_strategy file := by
    rcases serve_found_cases v req file hfound with
      ⟨_, hs⟩ | ⟨_, _, _, _, _, hs⟩ | ⟨_, _, _, _, _, hs⟩ | ⟨_, _, _, hs⟩
    · injection (hok.symm.trans hs) with h
      rw [h]
    · injection (hok.symm.trans hs) with h
      rw [h]
    · injection (hok.symm.trans hs) with h
      rw [h]
    · rw [hok] at hs
      exact Except.noConfusion hs
  rw [hheaders]
  refine ⟨?_, rfl, rfl, rfl, fun _ => rfl⟩
  cases hlm : file.last_modified with
  | none => simp [foundHeaders, hlm]
  | some lm => simp [foundHeaders, hlm]

/-- C7: A request whose resolution yields nothing is answered with status
404, an empty body and no headers at all. -/
theorem serve_not_found (v : ViteServe) (req : Request)
    (habsent : v.assets (v.requestFilePath (trimLeadingSlashes req.path)) = none) :
    v.serve req = Except.ok ⟨404, [], []⟩ := by
  simp only [ViteServe.serve, habsent]

/-- C8: On a found asset, `serve` fails fatally exactly when the request
carries an If-None-Match header whose value does not decode; for every
well-formed (or absent) header it does not fail. -/
theorem serve_malformed_if_none_match (v : ViteServe) (req : Request)
    (file : ViteFile)
    (hfound : v.assets (v.requestFilePath (trimLeadingSlashes req.path)) = some file) :
    (∃ msg, v.serve req = Except.error msg) ↔
      (∃ bs, req.ifNoneMatch = some bs ∧ headerValueToStr bs = none) := by
  rcases serve_found_cases v req file hfound with
    ⟨hnm, hs⟩ | ⟨hv, s, hnm, hdec, _, hs⟩ | ⟨hv, s, hnm, hdec, _, hs⟩ |
    ⟨hv, hnm, hdec, hs⟩
  · constructor
    · rintro ⟨msg, he⟩
      rw [hs] at he
      exact Except.noConfusion he
    · rintro ⟨bs, hbs, _⟩
      rw [hnm] at hbs
      exact Option.noConfusion hbs
  · constructor
    · rintro ⟨msg, he⟩
      rw [hs] at he
      exact Except.noConfusion he
    · rintro ⟨bs, hbs, hnone⟩
      rw [hnm] at hbs
      injection hbs with hbs
      rw [← hbs, hdec] at hnone
      exact Option.noConfusion hnone
  · constructor
    · rintro ⟨msg, he⟩
      rw [hs] at he
      exact Except.noConfusion he
    · rintro ⟨bs, hbs, hnone⟩
      rw [hnm] at hbs
      injection hbs with hbs
      rw [← hbs, hdec] at hnone
      exact Option.noConfusion hnone
  · exact iff_of_true ⟨_, hs⟩ ⟨hv, hnm, hdec⟩

/-- Dropping a block of leading slashes behaves like dropping none. -/
theorem dropWhile_slash_replicate (n : Nat) (l : List Char) :
    (List.replicate n '/' ++ l).dropWhile (fun c => c == '/') =
      l.dropWhile (fun c => c == '/') := by
  induction n with
  | zero => simp
  | succ n ih => simp [List.replicate_succ, ih]

/-- A path of `n` leading slashes before `s` strips to the same string as a
single leading slash before `s`. -/
theorem trimLeadingSlashes_replicate_append (n : Nat) (s : String) :
    trimLeadingSlashes (String.mk (List.replicate n '/' ++ s.data)) =
      trimLeadingSlashes ("/" ++ s) := by
  unfold trimLeadingSlashes
  rw [String.data_append]
  show String.mk ((List.replicate n '/' ++ s.data).dropWhile (fun c => c == '/')) =
    String.mk ((['/'] ++ s.data).dropWhile (fun c => c == '/'))
  rw [dropWhile_slash_replicate n s.data,
    show (['/'] : List Char) = List.replicate 1 '/' from rfl,
    dropWhile_slash_replicate 1 s.data]

/-- C10: `serve` strips all leading slashes, not just one: for `n ≥ 1`, a
path of `n` slashes before `s` is served identically to `"/" ++ s`, and a
path of slashes only strips to the empty path and resolves the `index.html`
fallback. -/
theorem serve_strips_all_leading_slashes (v : ViteServe) (inm : Option (List Nat))
    (s : String) (n : Nat) (_hn : 1 ≤ n) :
    v.serve { path := String.mk (List.replicate n '/' ++ s.data), ifNoneMatch := inm } =
      v.serve { path := "/" ++ s, ifNoneMatch := inm } ∧
    v.requestFilePath (trimLeadingSlashes (String.mk (List.replicate n '/'))) =
      "index.html" := by
  constructor
  · simp only [ViteServe.serve, trimLeadingSlashes_replicate_append n s]
  · have h : trimLeadingSlashes (String.mk (List.replicate n '/')) = "" := by
      unfold trimLeadingSlashes
      rw [show List.replicate n '/' = List.replicate n '/' ++ ([] : List Char) by simp,
        dropWhile_slash_replicate n []]
      rfl
    rw [h]
    simp [ViteServe.requestFilePath]

/-- C6: The live store's `get`: a 404 yields nothing; a network failure
also yields nothing (after logging) instead of propagating a transport error;
every non-404 response becomes an artifact whose `last_modified` is absent;
and a non-404 response missing Content-Type, Content-Length or (hashing
enabled) ETag is fatal. -/
theorem dev_get_spec (res : DevResponse) (msg : String) :
    (res.status = 404 → devGet (FetchResult.success res) = Except.ok none) ∧
    devGet (FetchResult.networkError msg) = Except.ok none ∧
    (∀ ct cl et, res.status ≠ 404 → res.contentType = some ct →
      res.contentLength = some cl → res.etagHeader = some et →
      devGet (FetchResult.success res) =
        Except.ok (some { content_type := ct, content_length := cl,
                          content_hash := et, last_modified := none,
                          bytes := res.body })) ∧
    (res.status ≠ 404 →
      (res.contentType = none ∨ res.contentLength = none ∨
        res.etagHeader = none) →
      ∃ e, devGet (FetchResult.success res) = Except.error e) := by
  refine ⟨?_, rfl, ?_, ?_⟩
  · intro h
    simp [devGet, h]
  · intro ct cl et h hct hcl het
    simp [devGet, h, hct, hcl, het]
  · intro h hmiss
    rcases hmiss with hm | hm | hm
    · exact ⟨"FATAL: ViteJS dev server did not return a content type!",
        by simp [devGet, h, hm]⟩
    · cases hct : res.contentType with
      | none =>
        exact ⟨"FATAL: ViteJS dev server did not return a content type!",
          by simp [devGet, h, hct]⟩
      | some ct =>
        exact ⟨"FATAL: ViteJS dev server did not return a Content-Length header.",
          by simp [devGet, h, hct, hm]⟩
    · cases hct : res.contentType with
      | none =>
        exact ⟨"FATAL: ViteJS dev server did not return a content type!",
          by simp [devGet, h, hct]⟩
      | some ct =>
        cases hcl : res.contentLength with
        | none =>
          exact ⟨"FATAL: ViteJS dev server did not return a Content-Length header.",
            by simp [devGet, h, hct, hcl]⟩
        | some cl =>
          exact ⟨"FATAL: ViteJS dev server did not return an ETag header.",
            by simp [devGet, h, hct, hcl, hm]⟩

/-- C9: the claim states the spec's replace-and-kill single-instance
behaviour, and the code contradicts it. A first start from the idle state
registers the spawned process; but a second start, instead of leaving the
fresh process registered and alive, ends with an empty slot and zero live
processes: after `set_dev_server` kills the replaced process, the replaced
handle's guaranteed `Drop` re-enters `unset_dev_server`, which takes and
kills the process that was just registered. -/
theorem supervisor_double_start_kills_both :
    (startDevServer ⟨none, [], 0⟩).1 = ⟨some 0, [0], 1⟩ ∧
    (startDevServer (startDevServer ⟨none, [], 0⟩).1).1 = ⟨none, [], 2⟩ ∧
    (startDevServer (startDevServer ⟨none, [], 0⟩).1).2 ∉
      (startDevServer (startDevServer ⟨none, [], 0⟩).1).1.alive :=
  ⟨rfl, rfl, by decide⟩


/-! Section: witnesses, each hypothesis-bearing theorem applied at concrete input -/

/-- Witness for C1: a conditional request for `/index.html` carrying the
artifact's ETag bytes yields the 304 response carrying the ETag header. -/
theorem serve_etag_conditional_witness :
    sampleServe.assets (sampleServe.requestFilePath (trimLeadingSlashes "/index.html")) =
        some fileA ∧
    sampleServe.serve { path := "/index.html", ifNoneMatch := some (strBytes "hashA") } =
        Except.ok ⟨304, foundHeaders CacheStrategy.Eager fileA, []⟩ ∧
    ("ETag", fileA.content_hash) ∈
      (Response.mk 304 (foundHeaders CacheStrategy.Eager fileA) []).headers :=
  ⟨rfl, rfl,
    (serve_etag_conditional sampleServe
      { path := "/index.html", ifNoneMatch := some (strBytes "hashA") } fileA
      ⟨304, foundHeaders CacheStrategy.Eager fileA, []⟩ rfl rfl).2.1⟩

/-- Witness for C2: the empty stripped path resolves `index.html`. -/
theorem serve_index_fallback_witness :
    trimLeadingSlashes "/" = "" ∧
    sampleServe.requestFilePath (trimLeadingSlashes "/") = "index.html" :=
  ⟨rfl, (serve_index_fallback sampleServe "/").1 rfl⟩

/-- Witness for C3: the scenario tables are sorted and disjoint, and `get`
returns the registered artifact for the literal key `index.html`. -/
theorem static_store_get_exact_witness :
    (sampleEntries.map Prod.fst).Pairwise (· < ·) ∧
    (∀ k ∈ sampleAliases.map Prod.fst, k ∉ sampleEntries.map Prod.fst) ∧
    staticGet sampleEntries sampleAliases "index.html" = some fileA :=
  ⟨by decide, by decide,
    (static_store_get_exact sampleEntries sampleAliases (by decide) (by decide)).1
      "index.html" fileA (by decide)⟩

/-- Witness for C4: resolving the alias source `src/app.ts` twice equals
resolving it once over the indexer-built alias table. -/
theorem alias_precedence_idempotent_witness :
    (sampleEntries.map Prod.fst).Pairwise (· < ·) ∧
    (∀ e ∈ sampleManifest, e.2.isEntry.getD false = true →
      e.2.file ∈ sampleEntries.map Prod.fst) ∧
    staticResolve (mkAliases sampleManifest (sampleEntries.map Prod.fst))
        (staticResolve (mkAliases sampleManifest (sampleEntries.map Prod.fst))
          "src/app.ts") =
      staticResolve (mkAliases sampleManifest (sampleEntries.map Prod.fst))
        "src/app.ts" :=
  ⟨by decide, by decide,
    (alias_precedence_idempotent sampleManifest sampleEntries (by decide)
      (by decide)).2.2.2 "src/app.ts"⟩

/-- Witness for C5: the Eager strategy emits exactly
`max-age=0, must-revalidate` on the found response. -/
theorem serve_cache_control_exact_witness :
    sampleServe.serve { path := "/index.html", ifNoneMatch := none } =
        Except.ok ⟨200, foundHeaders CacheStrategy.Eager fileA, fileA.bytes⟩ ∧
    (foundHeaders CacheStrategy.Eager fileA).filter
        (fun h => h.1 == "Cache-Control") =
      [("Cache-Control", "max-age=0, must-revalidate")] :=
  ⟨rfl,
    (serve_cache_control_exact sampleServe
      { path := "/index.html", ifNoneMatch := none } fileA
      ⟨200, foundHeaders CacheStrategy.Eager fileA, fileA.bytes⟩ rfl rfl).1⟩

/-- Witness for C6: a complete non-404 dev response converts to the artifact
with `last_modified` absent. -/
theorem dev_get_spec_witness :
    (DevResponse.mk 200 (some "text/html") (some 2) (some "etag0")
        [104, 105]).status ≠ 404 ∧
    devGet (FetchResult.success
        (DevResponse.mk 200 (some "text/html") (some 2) (some "etag0")
          [104, 105])) =
      Except.ok (some { content_type := "text/html", content_length := 2,
                        content_hash := "etag0", last_modified := none,
                        bytes := [104, 105] }) :=
  ⟨by decide,
    (dev_get_spec (DevResponse.mk 200 (some "text/html") (some 2) (some "etag0")
        [104, 105]) "connection refused").2.2.1 "text/html" 2 "etag0"
      (by decide) rfl rfl rfl⟩

/-- Witness for C7: the missing path `/missing.js` yields the bare 404. -/
theorem serve_not_found_witness :
    sampleServe.assets (sampleServe.requestFilePath (trimLeadingSlashes "/missing.js")) =
        none ∧
    sampleServe.serve { path := "/missing.js", ifNoneMatch := none } =
      Except.ok ⟨404, [], []⟩ :=
  ⟨rfl, serve_not_found sampleServe { path := "/missing.js", ifNoneMatch := none } rfl⟩

/-- Witness for C8: a non-ASCII If-None-Match byte (200) on a found asset is a
fatal error. -/
theorem serve_malformed_if_none_match_witness :
    sampleServe.assets (sampleServe.requestFilePath (trimLeadingSlashes "/index.html")) =
        some fileA ∧
    (∃ msg, sampleServe.serve
        { path := "/index.html", ifNoneMatch := some [200] } = Except.error msg) :=
  ⟨rfl,
    (serve_malformed_if_none_match sampleServe
      { path := "/index.html", ifNoneMatch := some [200] } fileA rfl).mpr
    ⟨[200], rfl, rfl⟩⟩

/-- Witness for C10: `//a` is served identically to `/a`. -/
theorem serve_strips_all_leading_slashes_witness :
    1 ≤ 2 ∧
    sampleServe.serve ⟨String.mk (List.replicate 2 '/' ++ "a".data), none⟩ =
      sampleServe.serve ⟨"/" ++ "a", none⟩ :=
  ⟨by decide, (serve_strips_all_leading_slashes sampleServe none "a" 2 (by decide)).1⟩
